import Mathlib

/-!
Verification of the snapshot-cleanup program (clean_nexus_snapshots.py).

Shallow embedding notes:
* Version strings are modelled as `String` / `List Char`.  The regex
  `SNAPSHOT_PATTERN = ^(.*?)-(\d{8}\.\d{6})-(\d+)$` is embedded with Python's
  `re` semantics at the ASCII level: `.` matches any character except a
  newline, and the `$` anchor matches at the end of the string or just
  before one final trailing newline.  (`\d` is modelled as an ASCII digit;
  non-ASCII Unicode digits are outside the model.)
* `datetime.strptime(ts, "%Y%m%d.%H%M%S")` on an 8-digit date and 6-digit
  time succeeds exactly when the digits form a valid calendar date/time
  (year 1..9999, month 1..12, day within the month, hour 0..23,
  minute 0..59, second 0..59); every failure raises ValueError, which the
  source catches and turns into None.  This is `validDT` below.
* The remote HTTP world is closed over by oracles: one request attempt is
  an `Except String Nat` (a transport error message, or a status code;
  `raise_for_status` raises exactly for codes >= 400), a page body is data
  already decoded from JSON, and the per-component outcome of
  `delete_component` is a boolean oracle.
* Python dicts preserve insertion order; `groupByKey` models the
  `setdefault(...).append(...)` grouping including that order.
* `list.sort(key=..., reverse=True)` is a stable descending sort; the
  claims under verification do not depend on tie order, so any descending
  sort by the same key is an adequate model (`sortSnaps`).
-/

/-- All characters of the list are ASCII digits (model of a `\d` run). -/
def allDigits (cs : List Char) : Bool := cs.all Char.isDigit

/-- Decimal value of a digit string, as Python `int` computes it
(leading zeros allowed). -/
def digitsToNat (cs : List Char) : Nat :=
  cs.foldl (fun n c => n * 10 + (c.toNat - 48)) 0

/-- Calendar timestamp at second precision, the value decoded by
`datetime.strptime(ts, "%Y%m%d.%H%M%S")` in `parse_snapshot_version`. -/
structure DateTime where
  year : Nat
  month : Nat
  day : Nat
  hour : Nat
  minute : Nat
  second : Nat
  deriving DecidableEq, Repr

/-- Gregorian leap-year rule used by Python's `datetime`. -/
def isLeapYear (y : Nat) : Bool :=
  (y % 4 == 0 && y % 100 != 0) || y % 400 == 0

/-- Number of days of month `m` of year `y` (Python `calendar` rule). -/
def daysInMonth (y m : Nat) : Nat :=
  if m = 2 then (if isLeapYear y then 29 else 28)
  else if m = 4 ∨ m = 6 ∨ m = 9 ∨ m = 11 then 30
  else 31

/-- The exact condition under which `datetime.strptime` with format
`%Y%m%d.%H%M%S` succeeds on an 8-digit date and a 6-digit time: the digits
form a valid calendar date/time.  (Month and day must each use their
2-digit form, hour 00..23, minute 00..59; the regex used by strptime also
admits seconds 60 and 61, but the datetime constructor then raises
ValueError, so success requires second <= 59; year 0 likewise raises.) -/
def validDT (d : DateTime) : Prop :=
  1 ≤ d.year ∧ 1 ≤ d.month ∧ d.month ≤ 12 ∧ 1 ≤ d.day ∧
    d.day ≤ daysInMonth d.year d.month ∧ d.hour ≤ 23 ∧ d.minute ≤ 59 ∧ d.second ≤ 59

instance (d : DateTime) : Decidable (validDT d) := by
  unfold validDT; infer_instance

/-- The `DateTime` decoded from the 8 date digits and 6 time digits. -/
def decodeDT (d8 t6 : List Char) : DateTime :=
  { year := digitsToNat (d8.take 4)
    month := digitsToNat ((d8.drop 4).take 2)
    day := digitsToNat (d8.drop 6)
    hour := digitsToNat (t6.take 2)
    minute := digitsToNat ((t6.drop 2).take 2)
    second := digitsToNat (t6.drop 4) }

/-- Match of the tail of `SNAPSHOT_PATTERN` after a candidate `-` separator:
the fragment `\d{8}\.\d{6}-(\d+)$`.  Python's `$` also matches just before
one final trailing newline, so after the greedy `\d+` run the remainder must
be empty or a single `'\n'`.  Returns (date digits, time digits, build
digits) on success. -/
def tailMatch (cs : List Char) : Option (List Char × List Char × List Char) :=
  let d8 := cs.take 8
  let r1 := cs.drop 8
  let t6 := (r1.drop 1).take 6
  let r2 := (r1.drop 1).drop 6
  let b := (r2.drop 1).takeWhile Char.isDigit
  let tail := (r2.drop 1).dropWhile Char.isDigit
  if d8.length = 8 ∧ allDigits d8 = true ∧ r1.take 1 = ['.'] ∧
      t6.length = 6 ∧ allDigits t6 = true ∧ r2.take 1 = ['-'] ∧
      b ≠ [] ∧ (tail = [] ∨ tail = ['\n']) then
    some (d8, t6, b)
  else none

/-- Left-to-right search of `SNAPSHOT_PATTERN.match`: the non-greedy
`^(.*?)` tries the shortest base first, so the match lands on the first
`-` whose tail matches `tailMatch`.  `.` never matches `'\n'`, so the scan
stops (no match) at a newline that would have to be part of the base.
`acc` is the base read so far. -/
def patternScan (acc : List Char) : List Char → Option (List Char × (List Char × List Char × List Char))
  | [] => none
  | c :: tl =>
    if c = '-' then
      match tailMatch tl with
      | some r => some (acc, r)
      | none => patternScan (acc ++ [c]) tl
    else if c = '\n' then none
    else patternScan (acc ++ [c]) tl

/-- `parse_snapshot_version`: match `SNAPSHOT_PATTERN`, decode the
timestamp with strptime (ValueError gives None), and return
(base + "-SNAPSHOT", timestamp, build number). -/
def parse_snapshot_version (v : String) : Option (String × DateTime × Nat) :=
  match patternScan [] v.data with
  | none => none
  | some (base, d8, t6, b) =>
    let dt := decodeDT d8 t6
    if validDT dt then some (String.mk base ++ "-SNAPSHOT", dt, digitsToNat b)
    else none

/-- Modelled from the spec: the structural side conditions of the pattern
`<base>-<8-digit-date>.<6-digit-time>-<integer build>` on the three
captured digit groups. -/
def goodSuffix (d8 t6 b : List Char) : Prop :=
  d8.length = 8 ∧ allDigits d8 = true ∧ t6.length = 6 ∧ allDigits t6 = true ∧
    b ≠ [] ∧ allDigits b = true

instance (d8 t6 b : List Char) : Decidable (goodSuffix d8 t6 b) := by
  unfold goodSuffix; infer_instance

/-- Modelled from the spec: tail matcher for the spec's literal pattern,
where the build digits must run to the very end of the string (no trailing
newline allowance). -/
def strictTailMatch (cs : List Char) : Option (List Char × List Char × List Char) :=
  let d8 := cs.take 8
  let r1 := cs.drop 8
  let t6 := (r1.drop 1).take 6
  let r2 := (r1.drop 1).drop 6
  let b := r2.drop 1
  if d8.length = 8 ∧ allDigits d8 = true ∧ r1.take 1 = ['.'] ∧
      t6.length = 6 ∧ allDigits t6 = true ∧ r2.take 1 = ['-'] ∧
      b ≠ [] ∧ allDigits b = true then
    some (d8, t6, b)
  else none

/-- Modelled from the spec: does the whole string match the spec's pattern
`<base>-<8-digit-date>.<6-digit-time>-<integer build>`, with an arbitrary
base?  Tries every `-` as the separator. -/
def strictScan : List Char → Bool
  | [] => false
  | c :: tl =>
    if c = '-' ∧ (strictTailMatch tl).isSome then true else strictScan tl

/-- One Nexus component as read from the listing JSON: the fields the
program uses (`id`, `group`, `name`, `version`). -/
structure Component where
  id : String
  group : String
  name : String
  version : String
  deriving DecidableEq, Repr

/-- One entry of a version branch: the dict
`{"component": comp, "datetime": dt_obj, "build": build_number}` built in
`process_snapshots`. -/
structure SnapEntry where
  component : Component
  datetime : DateTime
  build : Nat
  deriving DecidableEq, Repr

/-- The Python sort key `(x["datetime"], x["build"])`, flattened to one
list compared lexicographically (datetimes compare chronologically, i.e.
lexicographically on their fields, and the build number breaks ties). -/
def sortKey (e : SnapEntry) : List Nat :=
  [e.datetime.year, e.datetime.month, e.datetime.day,
   e.datetime.hour, e.datetime.minute, e.datetime.second, e.build]

/-- Lexicographic less-or-equal on lists of naturals (the order Python uses
on the tuples produced by the sort key). -/
def natListLe : List Nat → List Nat → Bool
  | [], _ => true
  | _ :: _, [] => false
  | a :: as, b :: bs => if a < b then true else if b < a then false else natListLe as bs

/-- Insert an entry into a list that is sorted descending by `sortKey`,
keeping it sorted. -/
def insertDesc (e : SnapEntry) : List SnapEntry → List SnapEntry
  | [] => [e]
  | x :: xs =>
    if natListLe (sortKey e) (sortKey x) then x :: insertDesc e xs
    else e :: x :: xs

/-- Model of `snapshots.sort(key=lambda x: (x["datetime"], x["build"]),
reverse=True)`: sort descending by `sortKey`. -/
def sortSnaps : List SnapEntry → List SnapEntry
  | [] => []
  | x :: xs => insertDesc x (sortSnaps xs)

/-- Append `v` to the group of key `k`, or open a new group at the end:
one step of `dict.setdefault(key, []).append(value)` on an
insertion-ordered dict. -/
def insertGroup {K V : Type} [DecidableEq K] (k : K) (v : V) :
    List (K × List V) → List (K × List V)
  | [] => [(k, [v])]
  | (k', vs) :: tl =>
    if k' = k then (k', vs ++ [v]) :: tl else (k', vs) :: insertGroup k v tl

/-- Group a list by a key function into an insertion-ordered dict, the way
the source builds `artifacts` and `version_branches`. -/
def groupByKey {K V : Type} [DecidableEq K] (keyf : V → K) (l : List V) :
    List (K × List V) :=
  l.foldl (fun acc v => insertGroup (keyf v) v acc) []

/-- Concatenation of the images of `f`, used to flatten iteration over the
nested dicts. -/
def concatMap {α β : Type} (f : α → List β) : List α → List β
  | [] => []
  | x :: xs => f x ++ concatMap f xs

/-- The survivors of `parse_snapshot_version` within one artifact group,
each paired with its parsed base version (components that fail to parse
are skipped). -/
def parseEntries (comps : List Component) : List (String × SnapEntry) :=
  comps.filterMap fun c =>
    (parse_snapshot_version c.version).map fun p => (p.1, ⟨c, p.2.1, p.2.2⟩)

/-- The kept prefix of one version branch: the first `retain` entries after
the descending sort (what the source leaves untouched). -/
def branchKeep (retain : Nat) (snaps : List SnapEntry) : List SnapEntry :=
  (sortSnaps snaps).take retain

/-- The delete suffix of one version branch: `snapshots[retain_count:]`
when the branch is larger than `retain_count`, nothing otherwise. -/
def branchDeletes (retain : Nat) (snaps : List SnapEntry) : List SnapEntry :=
  if retain < (sortSnaps snaps).length then (sortSnaps snaps).drop retain else []

/-- Every component marked for deletion by `process_snapshots`, in loop
order: group by (group, name), sub-group the parse survivors by base
version, and take each branch's delete suffix. -/
def deleteCandidates (retain : Nat) (components : List Component) : List Component :=
  concatMap
    (fun g =>
      concatMap
        (fun br => (branchDeletes retain (br.2.map Prod.snd)).map SnapEntry.component)
        (groupByKey Prod.fst (parseEntries g.2)))
    (groupByKey (fun c => (c.group, c.name)) components)

/-- One iteration of the innermost deletion loop of `process_snapshots`
on the accumulator (success flag, reported deletions, attempted
deletions): the component is reported (`logger.info` counts it); in
dry-run mode nothing else happens, otherwise it is passed to
`delete_component` (whose boolean result the oracle `delOk` supplies) and
a False result clears the success flag without stopping the loop. -/
def markStep (dry : Bool) (delOk : Component → Bool)
    (acc : Bool × List Component × List Component) (c : Component) :
    Bool × List Component × List Component :=
  if dry then (acc.1, acc.2.1 ++ [c], acc.2.2)
  else (acc.1 && delOk c, acc.2.1 ++ [c], acc.2.2 ++ [c])

/-- `process_snapshots`, closed over the remote by the oracle `delOk`:
fold `markStep` over the delete candidates in loop order.  Returns
(the `success` flag, the components reported for deletion, the components
actually passed to `delete_component`). -/
def process_snapshots (dry : Bool) (retain : Nat) (delOk : Component → Bool)
    (components : List Component) : Bool × List Component × List Component :=
  if components.isEmpty then (true, [], [])
  else (deleteCandidates retain components).foldl (markStep dry delOk) (true, [], [])

/-- The cause attached to a `NexusAPIError`: the last underlying
`RequestException`, either a transport error or an HTTP error status
(what `raise_for_status` raised on a status >= 400). -/
inductive Cause : Type
  | net (msg : String)
  | http (status : Nat)
  deriving DecidableEq, Repr

/-- What `make_api_request` does for the caller: return a response (its
status code), raise a typed `NexusAPIError`, or fall off the retry loop
and return Python `None`. -/
inductive ApiResult : Type
  | response (status : Nat)
  | apiError (cause : Cause)
  | nothing
  deriving DecidableEq, Repr

/-- Observable trace of one `make_api_request` call: its result, how many
request attempts were made, and the sleeps (in seconds) between them. -/
structure ApiTrace where
  result : ApiResult
  attemptsMade : Nat
  sleeps : List Nat
  deriving DecidableEq, Repr

/-- One attempt `i` of the retry loop of `make_api_request`, with
`fuel = maxR - i` remaining loop iterations.  An attempt yields either a
transport error message or a status code; status 204 returns at once,
a status below 400 passes `raise_for_status` and returns, and any
`RequestException` retries after sleeping `delay` unless this was the last
attempt, in which case a `NexusAPIError` with the last cause is raised.
Fuel runs out only when the loop had zero iterations (`maxR = 0`), in
which case the function returns Python `None`. -/
def apiGo (delay : Nat) (attempts : Nat → Except String Nat) (maxR : Nat) :
    Nat → Nat → ApiTrace
  | _, 0 => ⟨ApiResult.nothing, 0, []⟩
  | i, fuel + 1 =>
    match attempts i with
    | Except.ok s =>
      if s = 204 then ⟨ApiResult.response 204, 1, []⟩
      else if s < 400 then ⟨ApiResult.response s, 1, []⟩
      else if i < maxR - 1 then
        let t := apiGo delay attempts maxR (i + 1) fuel
        ⟨t.result, t.attemptsMade + 1, delay :: t.sleeps⟩
      else ⟨ApiResult.apiError (Cause.http s), 1, []⟩
    | Except.error m =>
      if i < maxR - 1 then
        let t := apiGo delay attempts maxR (i + 1) fuel
        ⟨t.result, t.attemptsMade + 1, delay :: t.sleeps⟩
      else ⟨ApiResult.apiError (Cause.net m), 1, []⟩

/-- `make_api_request` with `max_retries = maxR` and `retry_delay = delay`,
closed over the network by the per-attempt oracle `attempts`. -/
def make_api_request (delay maxR : Nat) (attempts : Nat → Except String Nat) : ApiTrace :=
  apiGo delay attempts maxR 0 maxR

/-- An attempt outcome that `make_api_request` treats as a transient
failure (a `RequestException`): a transport error, or a response whose
status makes `raise_for_status` raise (>= 400). -/
def transient : Except String Nat → Prop
  | Except.error _ => True
  | Except.ok s => 400 ≤ s

/-- The `Cause` a failed attempt contributes (meaningful under
`transient`). -/
def causeOf : Except String Nat → Cause
  | Except.error m => Cause.net m
  | Except.ok s => Cause.http s

/-- `delete_component` given the outcome of its `make_api_request` call:
True exactly on a 204 response; a `NexusAPIError` is caught and gives
False; on Python `None` the attribute access `response.status_code` raises
an untyped `AttributeError` (modelled as `none`). -/
def delete_component : ApiResult → Option Bool
  | ApiResult.response s => some (s == 204)
  | ApiResult.apiError _ => some false
  | ApiResult.nothing => none

/-- What one iteration of the pagination loop observes for its page:
a decoded page (`items` plus optional `continuationToken`), a
`NexusAPIError` from `make_api_request` (retries exhausted), a JSON decode
error, or `response = None` (only when `max_retries = 0`), on which
`response.json()` raises an untyped `AttributeError`. -/
inductive PageOutcome : Type
  | page (items : List Component) (token : Option String)
  | apiFail
  | jsonFail
  | noneResponse
  deriving Repr

/-- Bridge from a `make_api_request` outcome and a decoded body to what
the pagination loop sees for that page. -/
def pageRequest (r : ApiResult) (body : Option (List Component × Option String)) :
    PageOutcome :=
  match r with
  | ApiResult.nothing => PageOutcome.noneResponse
  | ApiResult.apiError _ => PageOutcome.apiFail
  | ApiResult.response _ =>
    match body with
    | none => PageOutcome.jsonFail
    | some (items, tok) => PageOutcome.page items tok

/-- Result of `get_all_components_paginated`: the aggregated components,
Python `None` (the typed failure path, caught errors), or an uncaught
exception escaping the function. -/
inductive FetchResult : Type
  | success (comps : List Component)
  | failure
  | untypedError
  deriving DecidableEq, Repr

/-- The `while True` pagination loop over a finite script of page
outcomes; `none` means the script ran out while a continuation token was
still present (the loop would keep going), which no claim is about. -/
def fetchLoop : List PageOutcome → List Component → Option FetchResult
  | [], _ => none
  | p :: rest, acc =>
    match p with
    | PageOutcome.page items tok =>
      match tok with
      | none => some (FetchResult.success (acc ++ items))
      | some _ => fetchLoop rest (acc ++ items)
    | PageOutcome.apiFail => some FetchResult.failure
    | PageOutcome.jsonFail => some FetchResult.failure
    | PageOutcome.noneResponse => some FetchResult.untypedError

/-- `get_all_components_paginated` over a page script, starting from the
empty accumulator. -/
def get_all_components_paginated (pages : List PageOutcome) : Option FetchResult :=
  fetchLoop pages []

/-- The value of the global `last_run_status`. -/
inductive RunStatus : Type
  | never_run
  | success
  | partial_failure
  | failed
  deriving DecidableEq, Repr

/-- `cleanup_job` after the fetch: on a component list, run
`process_snapshots` and record success / partial_failure; on `None`
record failed; an exception that escaped the fetch is caught by the
job's `except Exception` and also records failed.  Returns the recorded
status and the components actually passed to `delete_component`. -/
def cleanup_job (fr : FetchResult) (dry : Bool) (retain : Nat)
    (delOk : Component → Bool) : RunStatus × List Component :=
  match fr with
  | FetchResult.success comps =>
    let r := process_snapshots dry retain delOk comps
    (if r.1 then RunStatus.success else RunStatus.partial_failure, r.2.2)
  | FetchResult.failure => (RunStatus.failed, [])
  | FetchResult.untypedError => (RunStatus.failed, [])

/-- A concrete component used by witness instances, carrying the given
version string. -/
def demoComp (v : String) : Component :=
  ⟨"id-" ++ v, "app", "lib", v⟩

/-- A concrete branch entry for day `d` of January 2024, build `b`. -/
def demoEntry (d b : Nat) : SnapEntry :=
  ⟨demoComp ("1.0-2024010" ++ toString d ++ ".010000-" ++ toString b),
   ⟨2024, 1, d, 1, 0, 0⟩, b⟩

/-- The spec's example branch: three timestamped builds of `1.0-SNAPSHOT`. -/
def demoBranch : List SnapEntry :=
  [demoEntry 1 1, demoEntry 2 2, demoEntry 3 3]

example : parse_snapshot_version "1.0-20240115.083045-7" =
    some ("1.0-SNAPSHOT", ⟨2024, 1, 15, 8, 30, 45⟩, 7) := by decide

example : parse_snapshot_version "1.0-SNAPSHOT" = none := by decide

example : parse_snapshot_version "-20240115.083045-7" =
    some ("-SNAPSHOT", ⟨2024, 1, 15, 8, 30, 45⟩, 7) := by decide

example : parse_snapshot_version "1.0-20240115.083045-7\n" =
    some ("1.0-SNAPSHOT", ⟨2024, 1, 15, 8, 30, 45⟩, 7) := by decide

example : parse_snapshot_version "x-20240101.010000-20240202.020202-3" =
    some ("x-20240101.010000-SNAPSHOT", ⟨2024, 2, 2, 2, 2, 2⟩, 3) := by decide

example : parse_snapshot_version "1.0-20240230.083045-7" = none := by decide

example : strictScan ("1.0-20240115.083045-7\n".data) = false := by decide

example : strictScan ("a\nb-20240115.083045-7".data) = true := by decide

example : parse_snapshot_version "a\nb-20240115.083045-7" = none := by decide

/-! ## Order lemmas: the lexicographic sort key -/

theorem natListLe_total : ∀ x y : List Nat, natListLe x y = true ∨ natListLe y x = true := by
  intro x
  induction x with
  | nil => intro y; left; rfl
  | cons a as ih =>
    intro y
    cases y with
    | nil => right; rfl
    | cons b bs =>
      by_cases hab : a < b
      · left; simp [natListLe, hab]
      · by_cases hba : b < a
        · right; simp [natListLe, hba]
        · rcases ih bs with h | h
          · left; simp [natListLe, hab, hba, h]
          · right; simp [natListLe, hab, hba, h]

theorem natListLe_trans :
    ∀ x y z : List Nat, natListLe x y = true → natListLe y z = true → natListLe x z = true := by
  intro x
  induction x with
  | nil => intro y z _ _; rfl
  | cons a as ih =>
    intro y z hxy hyz
    cases y with
    | nil => simp [natListLe] at hxy
    | cons b bs =>
      cases z with
      | nil => simp [natListLe] at hyz
      | cons c cs =>
        by_cases hab : a < b
        · by_cases hbc : b < c
          · simp [natListLe, show a < c by omega]
          · by_cases hcb : c < b
            · simp [natListLe, hbc, hcb] at hyz
            · have hbc' : b = c := by omega
              simp [natListLe, show a < c by omega]
        · by_cases hba : b < a
          · simp [natListLe, hab, hba] at hxy
          · have hab' : a = b := by omega
            subst hab'
            by_cases hac : a < c
            · simp [natListLe, hac]
            · by_cases hca : c < a
              · simp [natListLe, hac, hca] at hyz
              · have : a = c := by omega
                subst this
                simp [natListLe, hac, hca] at hxy hyz ⊢
                exact ih bs cs hxy hyz

/-! ## Sorting lemmas -/

theorem insertDesc_perm (e : SnapEntry) (l : List SnapEntry) :
    (insertDesc e l).Perm (e :: l) := by
  induction l with
  | nil => exact List.Perm.refl _
  | cons x xs ih =>
    by_cases h : natListLe (sortKey e) (sortKey x) = true
    · simp only [insertDesc, h, if_true]
      exact (ih.cons x).trans (List.Perm.swap e x xs)
    · simp only [insertDesc, h, if_false]
      exact List.Perm.refl _

theorem sortSnaps_perm (l : List SnapEntry) : (sortSnaps l).Perm l := by
  induction l with
  | nil => exact List.Perm.refl _
  | cons x xs ih =>
    exact (insertDesc_perm x (sortSnaps xs)).trans (ih.cons x)

theorem length_sortSnaps (l : List SnapEntry) : (sortSnaps l).length = l.length :=
  (sortSnaps_perm l).length_eq

theorem mem_sortSnaps {e : SnapEntry} {l : List SnapEntry} : e ∈ sortSnaps l ↔ e ∈ l :=
  (sortSnaps_perm l).mem_iff

theorem pairwise_insertDesc (e : SnapEntry) (l : List SnapEntry)
    (h : l.Pairwise (fun a b => natListLe (sortKey b) (sortKey a) = true)) :
    (insertDesc e l).Pairwise (fun a b => natListLe (sortKey b) (sortKey a) = true) := by
  induction l with
  | nil => simp [insertDesc]
  | cons x xs ih =>
    rcases List.pairwise_cons.mp h with ⟨hx, hxs⟩
    by_cases ht : natListLe (sortKey e) (sortKey x) = true
    · simp only [insertDesc, ht, if_true]
      refine List.Pairwise.cons ?_ (ih hxs)
      intro y hy
      have hy2 : y ∈ e :: xs := (insertDesc_perm e xs).mem_iff.mp hy
      rcases List.mem_cons.mp hy2 with hy' | hy'
      · exact hy' ▸ ht
      · exact hx y hy'
    · simp only [insertDesc, ht, if_false]
      refine List.Pairwise.cons ?_ h
      intro y hy
      have hxe : natListLe (sortKey x) (sortKey e) = true := by
        rcases natListLe_total (sortKey e) (sortKey x) with h' | h'
        · exact absurd h' ht
        · exact h'
      rcases List.mem_cons.mp hy with hy' | hy'
      · exact hy' ▸ hxe
      · exact natListLe_trans _ _ _ (hx y hy') hxe

theorem sortSnaps_sorted (l : List SnapEntry) :
    (sortSnaps l).Pairwise (fun a b => natListLe (sortKey b) (sortKey a) = true) := by
  induction l with
  | nil => simp [sortSnaps]
  | cons x xs ih => exact pairwise_insertDesc x (sortSnaps xs) ih

/-! ## C1: keep/delete partition of a version branch -/

/-- C1: for every version branch and retain count, after the descending
sort by (timestamp, build) the kept prefix has `min S R` elements, the
delete suffix has `max 0 (S - R)` elements (truncated subtraction), every
kept entry's (timestamp, build) key is at least every deleted entry's key,
and a branch no larger than the retain count deletes nothing. -/
theorem C1_branch_partition (retain : Nat) (snaps : List SnapEntry) :
    (branchKeep retain snaps).length = min snaps.length retain ∧
    (branchDeletes retain snaps).length = snaps.length - retain ∧
    (∀ k ∈ branchKeep retain snaps, ∀ d ∈ branchDeletes retain snaps,
      natListLe (sortKey d) (sortKey k) = true) ∧
    (snaps.length ≤ retain → branchDeletes retain snaps = []) := by
  refine ⟨?_, ?_, ?_, ?_⟩
  · simp [branchKeep, List.length_take, length_sortSnaps, Nat.min_comm]
  · by_cases h : retain < (sortSnaps snaps).length
    · rw [branchDeletes, if_pos h, List.length_drop, length_sortSnaps]
    · have hlen : snaps.length ≤ retain := by
        have := length_sortSnaps snaps; omega
      simp [branchDeletes, h]; omega
  · intro k hk d hd
    by_cases h : retain < (sortSnaps snaps).length
    · have hsorted := sortSnaps_sorted snaps
      rw [← List.take_append_drop retain (sortSnaps snaps)] at hsorted
      have := (List.pairwise_append.mp hsorted).2.2
      simp only [branchDeletes, h, if_true] at hd
      exact this k hk d hd
    · simp [branchDeletes, h] at hd
  · intro h
    have : ¬ retain < (sortSnaps snaps).length := by
      have := length_sortSnaps snaps; omega
    simp [branchDeletes, this]

/-- Witness for C1 on the spec's example branch with retain count 2. -/
theorem C1_branch_partition_witness :
    (branchKeep 2 demoBranch).length = min demoBranch.length 2 ∧
    (branchDeletes 2 demoBranch).length = demoBranch.length - 2 ∧
    (∀ k ∈ branchKeep 2 demoBranch, ∀ d ∈ branchDeletes 2 demoBranch,
      natListLe (sortKey d) (sortKey k) = true) ∧
    (demoBranch.length ≤ 2 → branchDeletes 2 demoBranch = []) :=
  C1_branch_partition 2 demoBranch

/-! ## The deletion loop of process_snapshots -/

theorem markStep_false (delOk : Component → Bool)
    (acc : Bool × List Component × List Component) (c : Component) :
    markStep false delOk acc c = (acc.1 && delOk c, acc.2.1 ++ [c], acc.2.2 ++ [c]) := rfl

theorem markStep_true (delOk : Component → Bool)
    (acc : Bool × List Component × List Component) (c : Component) :
    markStep true delOk acc c = (acc.1, acc.2.1 ++ [c], acc.2.2) := rfl

theorem foldl_mark (delOk : Component → Bool) (dry : Bool) :
    ∀ (l : List Component) (b : Bool) (r a : List Component),
      List.foldl (markStep dry delOk) (b, r, a) l =
      (if dry then b else b && l.all delOk, r ++ l, if dry then a else a ++ l) := by
  intro l
  induction l with
  | nil => intro b r a; cases dry <;> simp
  | cons c cs ih =>
    intro b r a
    cases dry
    · rw [List.foldl_cons, markStep_false, ih]
      simp [Bool.and_assoc]
    · rw [List.foldl_cons, markStep_true, ih]
      simp

theorem process_snapshots_eq (dry : Bool) (retain : Nat) (delOk : Component → Bool)
    (components : List Component) :
    process_snapshots dry retain delOk components =
      (if dry then true else (deleteCandidates retain components).all delOk,
       deleteCandidates retain components,
       if dry then [] else deleteCandidates retain components) := by
  by_cases he : components.isEmpty = true
  · have hnil : components = [] := List.isEmpty_iff.mp he
    subst hnil
    have hc : deleteCandidates retain [] = [] := rfl
    cases dry <;> simp [process_snapshots, hc]
  · rw [process_snapshots, if_neg he, foldl_mark]
    cases dry <;> simp

/-! ## C5: partial-failure bookkeeping -/

/-- C5: in a non-dry pass every delete candidate is passed to
`delete_component` (no early abort), the pass flag is true exactly when
every attempted deletion succeeded, and the recorded status is success
when all (possibly zero) deletions succeed and partial_failure as soon as
one fails. -/
theorem C5_partial_failure (retain : Nat) (delOk : Component → Bool)
    (comps : List Component) :
    (process_snapshots false retain delOk comps).2.2 = deleteCandidates retain comps ∧
    ((process_snapshots false retain delOk comps).1 = true ↔
      ∀ c ∈ deleteCandidates retain comps, delOk c = true) ∧
    cleanup_job (FetchResult.success comps) false retain delOk =
      (if (deleteCandidates retain comps).all delOk then RunStatus.success
       else RunStatus.partial_failure,
       deleteCandidates retain comps) := by
  have hp := process_snapshots_eq false retain delOk comps
  refine ⟨?_, ?_, ?_⟩
  · simp [hp]
  · simp [hp, List.all_eq_true]
  · simp only [cleanup_job, hp]
    split <;> simp_all

/-- Witness for C5: the spec's example branch with retain count 2 and the
oldest build's deletion failing. -/
theorem C5_partial_failure_witness :
    (process_snapshots false 2 (fun c => c.id != "id-1.0-20240101.010000-1")
        (demoBranch.map SnapEntry.component)).2.2 =
      deleteCandidates 2 (demoBranch.map SnapEntry.component) ∧
    ((process_snapshots false 2 (fun c => c.id != "id-1.0-20240101.010000-1")
        (demoBranch.map SnapEntry.component)).1 = true ↔
      ∀ c ∈ deleteCandidates 2 (demoBranch.map SnapEntry.component),
        (c.id != "id-1.0-20240101.010000-1") = true) ∧
    cleanup_job (FetchResult.success (demoBranch.map SnapEntry.component)) false 2
        (fun c => c.id != "id-1.0-20240101.010000-1") =
      (if (deleteCandidates 2 (demoBranch.map SnapEntry.component)).all
            (fun c => c.id != "id-1.0-20240101.010000-1")
        then RunStatus.success else RunStatus.partial_failure,
       deleteCandidates 2 (demoBranch.map SnapEntry.component)) :=
  C5_partial_failure 2 (fun c => c.id != "id-1.0-20240101.010000-1")
    (demoBranch.map SnapEntry.component)

/-! ## C7: dry-run mode -/

/-- C7: in dry-run mode the delete set is still computed and reported
(and is the same set a non-dry pass would attempt), but no component is
passed to `delete_component` and the recorded status is success. -/
theorem C7_dry_run (retain : Nat) (delOk : Component → Bool) (comps : List Component) :
    (process_snapshots true retain delOk comps).2.1 = deleteCandidates retain comps ∧
    (process_snapshots true retain delOk comps).2.2 = [] ∧
    (process_snapshots false retain delOk comps).2.2 = deleteCandidates retain comps ∧
    cleanup_job (FetchResult.success comps) true retain delOk = (RunStatus.success, []) := by
  have hp := process_snapshots_eq true retain delOk comps
  have hp' := process_snapshots_eq false retain delOk comps
  refine ⟨?_, ?_, ?_, ?_⟩
  · simp [hp]
  · simp [hp]
  · simp [hp']
  · simp [cleanup_job, hp]

/-! ## Membership lemmas for the grouping -/

theorem mem_concatMap {α β : Type} (f : α → List β) (l : List α) (y : β) :
    y ∈ concatMap f l ↔ ∃ x ∈ l, y ∈ f x := by
  induction l with
  | nil => simp [concatMap]
  | cons x xs ih =>
    simp only [concatMap, List.mem_append, ih, List.mem_cons]
    constructor
    · rintro (h | ⟨z, hz, hy⟩)
      · exact ⟨x, Or.inl rfl, h⟩
      · exact ⟨z, Or.inr hz, hy⟩
    · rintro ⟨z, hz | hz, hy⟩
      · exact Or.inl (hz ▸ hy)
      · exact Or.inr ⟨z, hz, hy⟩

theorem mem_insertGroup_vals {K V : Type} [DecidableEq K] (k : K) (v : V) :
    ∀ (acc : List (K × List V)) (g : K × List V) (x : V),
      g ∈ insertGroup k v acc → x ∈ g.2 → x = v ∨ ∃ p ∈ acc, x ∈ p.2 := by
  intro acc
  induction acc with
  | nil =>
    intro g x hg hx
    simp only [insertGroup, List.mem_singleton] at hg
    subst hg
    simp only [List.mem_singleton] at hx
    exact Or.inl hx
  | cons q tl ih =>
    intro g x hg hx
    obtain ⟨k', vs⟩ := q
    by_cases hk : k' = k
    · rw [insertGroup, if_pos hk] at hg
      rcases List.mem_cons.mp hg with hg | hg
      · subst hg
        rcases List.mem_append.mp hx with hx | hx
        · exact Or.inr ⟨(k', vs), List.mem_cons_self _ _, hx⟩
        · simp only [List.mem_singleton] at hx
          exact Or.inl hx
      · exact Or.inr ⟨g, List.mem_cons_of_mem _ hg, hx⟩
    · rw [insertGroup, if_neg hk] at hg
      rcases List.mem_cons.mp hg with hg | hg
      · subst hg
        exact Or.inr ⟨(k', vs), List.mem_cons_self _ _, hx⟩
      · rcases ih g x hg hx with h | ⟨p, hp, hxp⟩
        · exact Or.inl h
        · exact Or.inr ⟨p, List.mem_cons_of_mem _ hp, hxp⟩

theorem groupByKey_vals_sub {K V : Type} [DecidableEq K] (keyf : V → K) :
    ∀ (l : List V) (acc : List (K × List V)) (g : K × List V) (x : V),
      g ∈ l.foldl (fun acc v => insertGroup (keyf v) v acc) acc → x ∈ g.2 →
      (∃ p ∈ acc, x ∈ p.2) ∨ x ∈ l := by
  intro l
  induction l with
  | nil =>
    intro acc g x hg hx
    exact Or.inl ⟨g, hg, hx⟩
  | cons v vs ih =>
    intro acc g x hg hx
    rw [List.foldl_cons] at hg
    rcases ih (insertGroup (keyf v) v acc) g x hg hx with ⟨p, hp, hxp⟩ | h
    · rcases mem_insertGroup_vals (keyf v) v acc p x hp hxp with h | ⟨p', hp', hxp'⟩
      · exact Or.inr (h ▸ List.mem_cons_self _ _)
      · exact Or.inl ⟨p', hp', hxp'⟩
    · exact Or.inr (List.mem_cons_of_mem _ h)

theorem mem_groupByKey_vals {K V : Type} [DecidableEq K] (keyf : V → K) (l : List V)
    (g : K × List V) (x : V) (hg : g ∈ groupByKey keyf l) (hx : x ∈ g.2) : x ∈ l := by
  rcases groupByKey_vals_sub keyf l [] g x hg hx with ⟨p, hp, _⟩ | h
  · simp at hp
  · exact h

theorem parseEntries_sound (comps : List Component) (p : String × SnapEntry)
    (hp : p ∈ parseEntries comps) :
    p.2.component ∈ comps ∧
      parse_snapshot_version p.2.component.version = some (p.1, p.2.datetime, p.2.build) := by
  rw [parseEntries, List.mem_filterMap] at hp
  obtain ⟨c, hc, hparse⟩ := hp
  rw [Option.map_eq_some'] at hparse
  obtain ⟨q, hq, hpq⟩ := hparse
  subst hpq
  exact ⟨hc, hq⟩

theorem mem_branchDeletes {retain : Nat} {snaps : List SnapEntry} {e : SnapEntry}
    (h : e ∈ branchDeletes retain snaps) : e ∈ snaps := by
  rw [branchDeletes] at h
  split at h
  · exact mem_sortSnaps.mp (List.mem_of_mem_drop h)
  · simp at h

theorem mem_deleteCandidates {retain : Nat} {components : List Component} {c : Component}
    (h : c ∈ deleteCandidates retain components) :
    ∃ e : SnapEntry, e.component = c ∧
      (parse_snapshot_version c.version).isSome = true := by
  rw [deleteCandidates, mem_concatMap] at h
  obtain ⟨g, _, hg⟩ := h
  rw [mem_concatMap] at hg
  obtain ⟨br, hbr, hc⟩ := hg
  rw [List.mem_map] at hc
  obtain ⟨e, he, hec⟩ := hc
  have he2 : e ∈ br.2.map Prod.snd := mem_branchDeletes he
  rw [List.mem_map] at he2
  obtain ⟨p, hp, hpe⟩ := he2
  have hpe2 : p ∈ parseEntries g.2 := mem_groupByKey_vals Prod.fst (parseEntries g.2) br p hbr hp
  have := (parseEntries_sound g.2 p hpe2).2
  refine ⟨e, hec, ?_⟩
  rw [← hec, ← hpe, this]
  rfl

/-! ## C6: unparseable versions are never deleted -/

/-- C6: a component whose version string fails to parse appears in no
version branch of any artifact group, is never reported for deletion, and
is never passed to `delete_component`, for any retain count and any
dry-run setting. -/
theorem C6_unparseable_excluded (dry : Bool) (retain : Nat) (delOk : Component → Bool)
    (comps : List Component) (c : Component)
    (h : parse_snapshot_version c.version = none) :
    (∀ g ∈ groupByKey (fun comp => (comp.group, comp.name)) comps,
      ∀ br ∈ groupByKey Prod.fst (parseEntries g.2), ∀ e ∈ br.2, e.2.component ≠ c) ∧
    c ∉ (process_snapshots dry retain delOk comps).2.1 ∧
    c ∉ (process_snapshots dry retain delOk comps).2.2 := by
  have hnotin : c ∉ deleteCandidates retain comps := by
    intro hc
    obtain ⟨e, hec, hsome⟩ := mem_deleteCandidates hc
    rw [h] at hsome
    simp at hsome
  refine ⟨?_, ?_, ?_⟩
  · intro g _ br hbr e he heq
    have hpe : e ∈ parseEntries g.2 := mem_groupByKey_vals Prod.fst (parseEntries g.2) br e hbr he
    have := (parseEntries_sound g.2 e hpe).2
    rw [heq, h] at this
    exact Option.noConfusion this
  · rw [process_snapshots_eq]
    simpa using hnotin
  · rw [process_snapshots_eq]
    intro hc
    rcases Bool.eq_false_or_eq_true dry with hd | hd <;> subst hd <;> simp at hc
    · exact hnotin hc

/-- Witness for C6 on the plain `1.0-SNAPSHOT` component from the spec's
example (its version has no timestamp suffix, so it does not parse). -/
theorem C6_unparseable_excluded_witness :
    (∀ g ∈ groupByKey (fun comp => (comp.group, comp.name)) [demoComp "1.0-SNAPSHOT"],
      ∀ br ∈ groupByKey Prod.fst (parseEntries g.2), ∀ e ∈ br.2,
        e.2.component ≠ demoComp "1.0-SNAPSHOT") ∧
    demoComp "1.0-SNAPSHOT" ∉
      (process_snapshots false 0 (fun _ => true) [demoComp "1.0-SNAPSHOT"]).2.1 ∧
    demoComp "1.0-SNAPSHOT" ∉
      (process_snapshots false 0 (fun _ => true) [demoComp "1.0-SNAPSHOT"]).2.2 :=
  C6_unparseable_excluded false 0 (fun _ => true) [demoComp "1.0-SNAPSHOT"]
    (demoComp "1.0-SNAPSHOT") (by decide)

/-! ## Retry-loop lemmas -/

theorem apiGo_all_transient (delay : Nat) (attempts : Nat → Except String Nat) (maxR : Nat)
    (h : ∀ i, transient (attempts i)) :
    ∀ fuel i, i + fuel = maxR → 0 < fuel →
      apiGo delay attempts maxR i fuel =
        ⟨ApiResult.apiError (causeOf (attempts (maxR - 1))), fuel,
         List.replicate (fuel - 1) delay⟩ := by
  intro fuel
  induction fuel with
  | zero => intro i _ h0; omega
  | succ k ih =>
    intro i hi _
    cases hA : attempts i with
    | ok s =>
      have ht : 400 ≤ s := by have := h i; rw [hA] at this; exact this
      have h204 : ¬ s = 204 := by omega
      have h400 : ¬ s < 400 := by omega
      simp only [apiGo, hA, if_neg h204, if_neg h400]
      by_cases hlast : i < maxR - 1
      · have hk : 0 < k := by omega
        rw [if_pos hlast, ih (i + 1) (by omega) hk]
        have : delay :: List.replicate (k - 1) delay = List.replicate k delay := by
          obtain ⟨k', rfl⟩ : ∃ k', k = k' + 1 := ⟨k - 1, by omega⟩
          simp [List.replicate_succ]
        simp [this]
      · have hk0 : k = 0 := by omega
        have hi' : maxR - 1 = i := by omega
        subst hk0
        rw [if_neg hlast, hi', hA]
        rfl
    | error m =>
      simp only [apiGo, hA]
      by_cases hlast : i < maxR - 1
      · have hk : 0 < k := by omega
        rw [if_pos hlast, ih (i + 1) (by omega) hk]
        have : delay :: List.replicate (k - 1) delay = List.replicate k delay := by
          obtain ⟨k', rfl⟩ : ∃ k', k = k' + 1 := ⟨k - 1, by omega⟩
          simp [List.replicate_succ]
        simp [this]
      · have hk0 : k = 0 := by omega
        have hi' : maxR - 1 = i := by omega
        subst hk0
        rw [if_neg hlast, hi', hA]
        rfl

theorem make_api_request_transient (delay maxR : Nat) (attempts : Nat → Except String Nat)
    (hR : 0 < maxR) (h : ∀ i, transient (attempts i)) :
    make_api_request delay maxR attempts =
      ⟨ApiResult.apiError (causeOf (attempts (maxR - 1))), maxR,
       List.replicate (maxR - 1) delay⟩ :=
  apiGo_all_transient delay attempts maxR h maxR 0 (by omega) hR

theorem make_api_request_204 (delay maxR : Nat) (attempts : Nat → Except String Nat)
    (hR : 0 < maxR) (h0 : attempts 0 = Except.ok 204) :
    make_api_request delay maxR attempts = ⟨ApiResult.response 204, 1, []⟩ := by
  rw [make_api_request]
  obtain ⟨f, rfl⟩ : ∃ f, maxR = f + 1 := ⟨maxR - 1, by omega⟩
  simp [apiGo, h0]

/-! ## C8: retry policy of make_api_request -/

/-- C8: when every attempt fails transiently, exactly `max_retries`
attempts are made with a fixed `retry_delay` sleep between consecutive
attempts, and the call ends in a typed `NexusAPIError` carrying the cause
of the last attempt; a no-content (204) response on the first attempt
returns at once with no further attempt and no sleep. -/
theorem C8_retry_policy (delay maxR : Nat) (attempts attempts204 : Nat → Except String Nat)
    (hR : 0 < maxR) (hT : ∀ i, transient (attempts i))
    (h204 : attempts204 0 = Except.ok 204) :
    make_api_request delay maxR attempts =
      ⟨ApiResult.apiError (causeOf (attempts (maxR - 1))), maxR,
       List.replicate (maxR - 1) delay⟩ ∧
    make_api_request delay maxR attempts204 = ⟨ApiResult.response 204, 1, []⟩ :=
  ⟨make_api_request_transient delay maxR attempts hR hT,
   make_api_request_204 delay maxR attempts204 hR h204⟩

/-- Witness for C8 with the default configuration (3 retries, 5-second
delay): a connection that times out on every attempt, and one that
answers 204 at once. -/
theorem C8_retry_policy_witness :
    make_api_request 5 3 (fun _ => Except.error "timeout") =
      ⟨ApiResult.apiError (causeOf ((fun _ => Except.error "timeout") (3 - 1))), 3,
       List.replicate (3 - 1) 5⟩ ∧
    make_api_request 5 3 (fun _ => Except.ok 204) = ⟨ApiResult.response 204, 1, []⟩ :=
  C8_retry_policy 5 3 (fun _ => Except.error "timeout") (fun _ => Except.ok 204)
    (by omega) (fun i => trivial) rfl

/-! ## C2: deletion of an already-absent component -/

/-- C2 counterexample: the delete endpoint answers 404 (component already
absent) on every attempt of the default configuration; `delete_component`
returns failure (`some false`), not success — `raise_for_status` turns
the 404 into a retried error and the final `NexusAPIError` is caught and
mapped to False. -/
theorem C2_counterexample_404 :
    delete_component (make_api_request 5 3 (fun _ => Except.ok 404)).result = some false := by
  decide

/-- C2 as amended: only a no-content (204) response makes
`delete_component` succeed; an endpoint that answers 404 on every attempt
(the not-found-equivalent reply for an already-absent component) makes it
return failure after the retries are exhausted. -/
theorem C2_delete_status (delay maxR : Nat) (attempts attempts204 : Nat → Except String Nat)
    (hR : 0 < maxR) (h404 : ∀ i, attempts i = Except.ok 404)
    (h204 : attempts204 0 = Except.ok 204) :
    delete_component (make_api_request delay maxR attempts).result = some false ∧
    delete_component (make_api_request delay maxR attempts204).result = some true := by
  constructor
  · rw [make_api_request_transient delay maxR attempts hR
      (fun i => by rw [h404 i]; show (400 : Nat) ≤ 404; omega)]
    rfl
  · rw [make_api_request_204 delay maxR attempts204 hR h204]
    rfl

/-- Witness for the amended C2 at the default configuration. -/
theorem C2_delete_status_witness :
    delete_component (make_api_request 5 3 (fun _ => Except.ok 404)).result = some false ∧
    delete_component (make_api_request 5 3 (fun _ => Except.ok 204)).result = some true :=
  C2_delete_status 5 3 (fun _ => Except.ok 404) (fun _ => Except.ok 204) (by omega)
    (fun _ => rfl) rfl

/-! ## C9: max_retries = 0 -/

/-- C9: with `max_retries = 0` the loop body never runs, so
`make_api_request` makes no attempt and returns Python `None` — neither a
response nor a typed `NexusAPIError`.  The pagination caller then
evaluates `response.json()` on `None`, an untyped `AttributeError` that
is not in the `except (NexusAPIError, json.JSONDecodeError)` clause, so
it escapes `get_all_components_paginated` and makes `cleanup_job` record
a failed pass through its catch-all handler. -/
theorem C9_zero_retries (delay : Nat) (attempts : Nat → Except String Nat)
    (body : Option (List Component × Option String)) (dry : Bool) (retain : Nat)
    (delOk : Component → Bool) :
    make_api_request delay 0 attempts = ⟨ApiResult.nothing, 0, []⟩ ∧
    pageRequest (make_api_request delay 0 attempts).result body = PageOutcome.noneResponse ∧
    get_all_components_paginated
        [pageRequest (make_api_request delay 0 attempts).result body] =
      some FetchResult.untypedError ∧
    cleanup_job FetchResult.untypedError dry retain delOk = (RunStatus.failed, []) :=
  ⟨rfl, rfl, rfl, rfl⟩

/-! ## C3: fetch is all-or-nothing -/

theorem fetchLoop_fail (rest : List PageOutcome) :
    ∀ pre : List PageOutcome,
      (∀ p ∈ pre, ∃ items tok, p = PageOutcome.page items (some tok)) →
      ∀ acc, fetchLoop (pre ++ PageOutcome.apiFail :: rest) acc = some FetchResult.failure := by
  intro pre
  induction pre with
  | nil => intro _ acc; rfl
  | cons p ps ih =>
    intro hpre acc
    obtain ⟨items, tok, rfl⟩ := hpre p (List.mem_cons_self _ _)
    rw [List.cons_append]
    show fetchLoop (ps ++ PageOutcome.apiFail :: rest) (acc ++ items) = some FetchResult.failure
    exact ih (fun q hq => hpre q (List.mem_cons_of_mem _ hq)) (acc ++ items)

/-- C3: a page whose fetch exhausts its retries observes the typed
`NexusAPIError` (`apiFail`); the pagination loop, having followed
continuation tokens through every earlier page, then returns the failure
and discards every component already accumulated, and `cleanup_job`
attempts zero deletions and records the pass as failed. -/
theorem C3_fetch_all_or_nothing (pre rest : List PageOutcome) (dry : Bool) (retain : Nat)
    (delOk : Component → Bool) (delay maxR : Nat) (attempts : Nat → Except String Nat)
    (body : Option (List Component × Option String))
    (hMR : 0 < maxR) (hT : ∀ i, transient (attempts i))
    (hpre : ∀ p ∈ pre, ∃ items tok, p = PageOutcome.page items (some tok)) :
    pageRequest (make_api_request delay maxR attempts).result body = PageOutcome.apiFail ∧
    (∀ acc, fetchLoop (pre ++ PageOutcome.apiFail :: rest) acc = some FetchResult.failure) ∧
    get_all_components_paginated (pre ++ PageOutcome.apiFail :: rest) =
      some FetchResult.failure ∧
    cleanup_job FetchResult.failure dry retain delOk = (RunStatus.failed, []) := by
  refine ⟨?_, fetchLoop_fail rest pre hpre, fetchLoop_fail rest pre hpre [], rfl⟩
  rw [make_api_request_transient delay maxR attempts hMR hT]
  rfl

/-- Witness for C3: one successful page with a continuation token, then a
page whose attempts all time out under the default configuration. -/
theorem C3_fetch_all_or_nothing_witness :
    pageRequest (make_api_request 5 3 (fun _ => Except.error "timeout")).result none =
      PageOutcome.apiFail ∧
    (∀ acc, fetchLoop ([PageOutcome.page [demoComp "1.0-20240101.010000-1"] (some "tok")] ++
        PageOutcome.apiFail :: []) acc = some FetchResult.failure) ∧
    get_all_components_paginated
        ([PageOutcome.page [demoComp "1.0-20240101.010000-1"] (some "tok")] ++
          PageOutcome.apiFail :: []) = some FetchResult.failure ∧
    cleanup_job FetchResult.failure false 3 (fun _ => true) = (RunStatus.failed, []) :=
  C3_fetch_all_or_nothing [PageOutcome.page [demoComp "1.0-20240101.010000-1"] (some "tok")]
    [] false 3 (fun _ => true) 5 3 (fun _ => Except.error "timeout") none (by omega)
    (fun i => trivial)
    (by
      intro p hp
      rw [List.mem_singleton] at hp
      exact ⟨[demoComp "1.0-20240101.010000-1"], "tok", hp⟩)

/-! ## Regex lemmas: the tail fragment -/

theorem allDigits_count_dash {l : List Char} (h : allDigits l = true) : l.count '-' = 0 := by
  rw [List.count_eq_zero]
  intro hm
  have hd := List.all_eq_true.mp h _ hm
  exact absurd hd (by decide)

theorem allDigits_count_nl {l : List Char} (h : allDigits l = true) : l.count '\n' = 0 := by
  rw [List.count_eq_zero]
  intro hm
  have hd := List.all_eq_true.mp h _ hm
  exact absurd hd (by decide)

theorem takeWhile_digits_append {b tail : List Char} (hb : allDigits b = true)
    (ht : tail = [] ∨ tail = ['\n']) :
    (b ++ tail).takeWhile Char.isDigit = b ∧ (b ++ tail).dropWhile Char.isDigit = tail := by
  induction b with
  | nil =>
    rcases ht with rfl | rfl
    · simp
    · refine ⟨?_, ?_⟩ <;> simp [List.takeWhile, List.dropWhile]
  | cons c cs ih =>
    rw [allDigits, List.all_cons, Bool.and_eq_true] at hb
    obtain ⟨hc, hcs⟩ := hb
    have ih' := ih hcs
    refine ⟨?_, ?_⟩
    · rw [List.cons_append, List.takeWhile_cons, if_pos hc, ih'.1]
    · rw [List.cons_append, List.dropWhile_cons, if_pos hc, ih'.2]

theorem tailMatch_sound {cs d8 t6 b : List Char} (h : tailMatch cs = some (d8, t6, b)) :
    ∃ tail, cs = d8 ++ '.' :: (t6 ++ '-' :: (b ++ tail)) ∧ goodSuffix d8 t6 b ∧
      (tail = [] ∨ tail = ['\n']) := by
  simp only [tailMatch] at h
  split at h
  · rename_i hc
    obtain ⟨h1, h2, h3, h4, h5, h6, h7, h8⟩ := hc
    rw [Option.some_inj] at h
    obtain ⟨hd8, ht6, hb⟩ : cs.take 8 = d8 ∧ ((cs.drop 8).drop 1).take 6 = t6 ∧
        ((((cs.drop 8).drop 1).drop 6).drop 1).takeWhile Char.isDigit = b := by
      refine ⟨congrArg Prod.fst h, ?_, ?_⟩
      · exact congrArg (fun p => p.2.1) h
      · exact congrArg (fun p => p.2.2) h
    refine ⟨(((cs.drop 8).drop 1).drop 6).drop 1 |>.dropWhile Char.isDigit, ?_, ?_, ?_⟩
    · have e1 : cs = cs.take 8 ++ cs.drop 8 := (List.take_append_drop 8 cs).symm
      have e2 : cs.drop 8 = '.' :: (cs.drop 8).drop 1 := by
        conv_lhs => rw [← List.take_append_drop 1 (cs.drop 8)]
        rw [h3]
        rfl
      have e3 : (cs.drop 8).drop 1 =
          ((cs.drop 8).drop 1).take 6 ++ ((cs.drop 8).drop 1).drop 6 :=
        (List.take_append_drop 6 _).symm
      have e4 : ((cs.drop 8).drop 1).drop 6 =
          '-' :: (((cs.drop 8).drop 1).drop 6).drop 1 := by
        conv_lhs => rw [← List.take_append_drop 1 (((cs.drop 8).drop 1).drop 6)]
        rw [h6]
        rfl
      have e5 : (((cs.drop 8).drop 1).drop 6).drop 1 =
          ((((cs.drop 8).drop 1).drop 6).drop 1).takeWhile Char.isDigit ++
            ((((cs.drop 8).drop 1).drop 6).drop 1).dropWhile Char.isDigit :=
        (List.takeWhile_append_dropWhile Char.isDigit _).symm
      conv_lhs => rw [e1, e2, e3, e4, e5]
      rw [hd8, ht6, hb]
    · refine ⟨hd8 ▸ h1, hd8 ▸ h2, ht6 ▸ h4, ht6 ▸ h5, hb ▸ h7, ?_⟩
      rw [← hb]
      exact List.all_eq_true.mpr fun x hx => List.mem_takeWhile_imp hx
    · exact h8
  · exact absurd h (by simp)

theorem tailMatch_complete {d8 t6 b tail : List Char} (hg : goodSuffix d8 t6 b)
    (ht : tail = [] ∨ tail = ['\n']) :
    tailMatch (d8 ++ '.' :: (t6 ++ '-' :: (b ++ tail))) = some (d8, t6, b) := by
  obtain ⟨h1, h2, h3, h4, h5, h6⟩ := hg
  have e1 : (d8 ++ '.' :: (t6 ++ '-' :: (b ++ tail))).take 8 = d8 := by
    rw [← h1, List.take_left]
  have e2 : (d8 ++ '.' :: (t6 ++ '-' :: (b ++ tail))).drop 8 =
      '.' :: (t6 ++ '-' :: (b ++ tail)) := by
    rw [← h1, List.drop_left]
  have e3 : (('.' : Char) :: (t6 ++ '-' :: (b ++ tail))).drop 1 = t6 ++ '-' :: (b ++ tail) := rfl
  have e4 : (t6 ++ '-' :: (b ++ tail)).take 6 = t6 := by rw [← h3, List.take_left]
  have e5 : (t6 ++ '-' :: (b ++ tail)).drop 6 = '-' :: (b ++ tail) := by
    rw [← h3, List.drop_left]
  have e6 : (('-' : Char) :: (b ++ tail)).drop 1 = b ++ tail := rfl
  have e7 := takeWhile_digits_append h6 ht
  simp only [tailMatch, e1, e2, e3, e4, e5, e6, e7.1, e7.2]
  rw [if_pos ⟨h1, h2, rfl, h3, h4, rfl, h5, ht⟩]

theorem suffix_count_dash {d8 t6 b tail : List Char} (hg : goodSuffix d8 t6 b)
    (ht : tail = [] ∨ tail = ['\n']) :
    (d8 ++ '.' :: (t6 ++ '-' :: (b ++ tail))).count '-' = 1 := by
  obtain ⟨h1, h2, h3, h4, h5, h6⟩ := hg
  have c8 := allDigits_count_dash h2
  have c6 := allDigits_count_dash h4
  have cb := allDigits_count_dash h6
  have ctail : tail.count '-' = 0 := by
    rcases ht with rfl | rfl <;> decide
  simp [List.count_append, List.count_cons, c8, c6, cb, ctail]

theorem tailMatch_within_base {mid d8 t6 b tail : List Char} (hg : goodSuffix d8 t6 b)
    (ht : tail = [] ∨ tail = ['\n']) :
    tailMatch (mid ++ '-' :: (d8 ++ '.' :: (t6 ++ '-' :: (b ++ tail)))) = none := by
  cases hm : tailMatch (mid ++ '-' :: (d8 ++ '.' :: (t6 ++ '-' :: (b ++ tail)))) with
  | none => rfl
  | some trip =>
    obtain ⟨d8', t6', b'⟩ := trip
    obtain ⟨tail', heq, hg', ht'⟩ := tailMatch_sound hm
    have hL : (mid ++ '-' :: (d8 ++ '.' :: (t6 ++ '-' :: (b ++ tail)))).count '-' =
        mid.count '-' + 2 := by
      rw [List.count_append, List.count_cons, suffix_count_dash hg ht]
      simp
    rw [heq, suffix_count_dash hg' ht'] at hL
    exact absurd hL (by omega)

/-! ## Regex lemmas: the non-greedy scan -/

theorem patternScan_complete {d8 t6 b tail : List Char} (hg : goodSuffix d8 t6 b)
    (ht : tail = [] ∨ tail = ['\n']) :
    ∀ base acc : List Char, '\n' ∉ base →
      patternScan acc (base ++ '-' :: (d8 ++ '.' :: (t6 ++ '-' :: (b ++ tail)))) =
        some (acc ++ base, d8, t6, b) := by
  intro base
  induction base with
  | nil =>
    intro acc _
    rw [List.nil_append, patternScan, if_pos rfl, tailMatch_complete hg ht]
    simp
  | cons c cs ih =>
    intro acc hnl
    rw [List.cons_append, patternScan]
    by_cases hc : c = '-'
    · subst hc
      rw [if_pos rfl, tailMatch_within_base hg ht]
      rw [ih (acc ++ ['-']) fun hm => hnl (List.mem_cons_of_mem _ hm)]
      simp
    · have hcn : ¬ c = '\n' := fun h => hnl (h ▸ List.mem_cons_self _ _)
      rw [if_neg hc, if_neg hcn, ih (acc ++ [c]) fun hm => hnl (List.mem_cons_of_mem _ hm)]
      simp

theorem patternScan_sound :
    ∀ l acc base d8 t6 b : List Char,
      patternScan acc l = some (base, d8, t6, b) →
      ∃ base₀ tail, base = acc ++ base₀ ∧
        l = base₀ ++ '-' :: (d8 ++ '.' :: (t6 ++ '-' :: (b ++ tail))) ∧
        goodSuffix d8 t6 b ∧ (tail = [] ∨ tail = ['\n']) ∧ '\n' ∉ base₀ := by
  intro l
  induction l with
  | nil =>
    intro acc base d8 t6 b h
    rw [patternScan] at h
    exact absurd h (by simp)
  | cons c tl ih =>
    intro acc base d8 t6 b h
    rw [patternScan] at h
    by_cases hc : c = '-'
    · subst hc
      rw [if_pos rfl] at h
      cases hm : tailMatch tl with
      | some r =>
        rw [hm] at h
        obtain ⟨r1, r2, r3⟩ := r
        injection h with h'
        injection h' with hacc h''
        injection h'' with hA h'''
        injection h''' with hB hC
        subst hacc hA hB hC
        obtain ⟨tail, heq, hg, ht⟩ := tailMatch_sound hm
        refine ⟨[], tail, by simp, ?_, hg, ht, by simp⟩
        rw [heq]
        rfl
      | none =>
        rw [hm] at h
        obtain ⟨base₀, tail, hb, hl, hg, ht, hnl⟩ := ih (acc ++ ['-']) base d8 t6 b h
        refine ⟨'-' :: base₀, tail, ?_, ?_, hg, ht, ?_⟩
        · rw [hb]; simp
        · rw [List.cons_append, hl]
        · intro hmem
          rcases List.mem_cons.mp hmem with h' | h'
          · exact absurd h'.symm (by decide)
          · exact hnl h'
    · rw [if_neg hc] at h
      by_cases hcn : c = '\n'
      · rw [if_pos hcn] at h
        exact absurd h (by simp)
      · rw [if_neg hcn] at h
        obtain ⟨base₀, tail, hb, hl, hg, ht, hnl⟩ := ih (acc ++ [c]) base d8 t6 b h
        refine ⟨c :: base₀, tail, ?_, ?_, hg, ht, ?_⟩
        · rw [hb]; simp
        · rw [List.cons_append, hl]
        · intro hmem
          rcases List.mem_cons.mp hmem with h' | h'
          · exact hcn h'.symm
          · exact hnl h'

/-! ## The spec's strict pattern -/

theorem strictTailMatch_sound {cs d8 t6 b : List Char}
    (h : strictTailMatch cs = some (d8, t6, b)) :
    cs = d8 ++ '.' :: (t6 ++ '-' :: b) ∧ goodSuffix d8 t6 b := by
  simp only [strictTailMatch] at h
  split at h
  · rename_i hc
    obtain ⟨h1, h2, h3, h4, h5, h6, h7, h8⟩ := hc
    rw [Option.some_inj] at h
    obtain ⟨hd8, ht6, hb⟩ : cs.take 8 = d8 ∧ ((cs.drop 8).drop 1).take 6 = t6 ∧
        (((cs.drop 8).drop 1).drop 6).drop 1 = b :=
      ⟨congrArg Prod.fst h, congrArg (fun p => p.2.1) h, congrArg (fun p => p.2.2) h⟩
    constructor
    · have e1 : cs = cs.take 8 ++ cs.drop 8 := (List.take_append_drop 8 cs).symm
      have e2 : cs.drop 8 = '.' :: (cs.drop 8).drop 1 := by
        conv_lhs => rw [← List.take_append_drop 1 (cs.drop 8)]
        rw [h3]
        rfl
      have e3 : (cs.drop 8).drop 1 =
          ((cs.drop 8).drop 1).take 6 ++ ((cs.drop 8).drop 1).drop 6 :=
        (List.take_append_drop 6 _).symm
      have e4 : ((cs.drop 8).drop 1).drop 6 =
          '-' :: (((cs.drop 8).drop 1).drop 6).drop 1 := by
        conv_lhs => rw [← List.take_append_drop 1 (((cs.drop 8).drop 1).drop 6)]
        rw [h6]
        rfl
      conv_lhs => rw [e1, e2, e3, e4]
      rw [hd8, ht6, hb]
    · exact ⟨hd8 ▸ h1, hd8 ▸ h2, ht6 ▸ h4, ht6 ▸ h5, hb ▸ h7, hb ▸ h8⟩
  · exact absurd h (by simp)

theorem strictTailMatch_complete {d8 t6 b : List Char} (hg : goodSuffix d8 t6 b) :
    strictTailMatch (d8 ++ '.' :: (t6 ++ '-' :: b)) = some (d8, t6, b) := by
  obtain ⟨h1, h2, h3, h4, h5, h6⟩ := hg
  have e1 : (d8 ++ '.' :: (t6 ++ '-' :: b)).take 8 = d8 := by rw [← h1, List.take_left]
  have e2 : (d8 ++ '.' :: (t6 ++ '-' :: b)).drop 8 = '.' :: (t6 ++ '-' :: b) := by
    rw [← h1, List.drop_left]
  have e3 : (('.' : Char) :: (t6 ++ '-' :: b)).drop 1 = t6 ++ '-' :: b := rfl
  have e4 : (t6 ++ '-' :: b).take 6 = t6 := by rw [← h3, List.take_left]
  have e5 : (t6 ++ '-' :: b).drop 6 = '-' :: b := by rw [← h3, List.drop_left]
  have e6 : (('-' : Char) :: b).drop 1 = b := rfl
  simp only [strictTailMatch, e1, e2, e3, e4, e5, e6]
  rw [if_pos ⟨h1, h2, rfl, h3, h4, rfl, h5, h6⟩]

theorem strictScan_iff (l : List Char) :
    strictScan l = true ↔
      ∃ base d8 t6 b, l = base ++ '-' :: (d8 ++ '.' :: (t6 ++ '-' :: b)) ∧
        goodSuffix d8 t6 b := by
  induction l with
  | nil =>
    constructor
    · intro h
      exact absurd h (by simp [strictScan])
    · rintro ⟨base, d8, t6, b, h, _⟩
      cases base <;> simp at h
  | cons c tl ih =>
    constructor
    · intro h
      rw [strictScan] at h
      split at h
      · rename_i hcond
        obtain ⟨hc, hsome⟩ := hcond
        subst hc
        obtain ⟨⟨d8, t6, b⟩, hm⟩ := Option.isSome_iff_exists.mp hsome
        obtain ⟨heq, hg⟩ := strictTailMatch_sound hm
        exact ⟨[], d8, t6, b, by rw [List.nil_append, heq], hg⟩
      · obtain ⟨base, d8, t6, b, heq, hg⟩ := ih.mp h
        exact ⟨c :: base, d8, t6, b, by rw [List.cons_append, heq], hg⟩
    · rintro ⟨base, d8, t6, b, heq, hg⟩
      cases base with
      | nil =>
        rw [List.nil_append] at heq
        obtain ⟨rfl, rfl⟩ : c = '-' ∧ tl = d8 ++ '.' :: (t6 ++ '-' :: b) := by
          injection heq with hA hB
          exact ⟨hA, hB⟩
        rw [strictScan, if_pos]
        exact ⟨rfl, by rw [strictTailMatch_complete hg]; rfl⟩
      | cons c' base' =>
        rw [List.cons_append] at heq
        obtain ⟨rfl, htl⟩ : c = c' ∧ tl = base' ++ '-' :: (d8 ++ '.' :: (t6 ++ '-' :: b)) := by
          injection heq with hA hB
          exact ⟨hA, hB⟩
        rw [strictScan]
        by_cases hcond : c = '-' ∧ (strictTailMatch tl).isSome = true
        · rw [if_pos hcond]
        · rw [if_neg hcond]
          exact ih.mpr ⟨base', d8, t6, b, htl, hg⟩

/-! ## C4: the parser against the spec's pattern -/

/-- C4 (amended): a version string of the form
`<base>-<date8>.<time6>-<build>[\n]` whose base contains no newline and at
most one trailing newline follows the build parses to
(base + "-SNAPSHOT", decoded timestamp, build) when the digits form a
valid calendar date/time and to no-match otherwise; every string with no
such decomposition yields no-match (None), never an error. -/
theorem C4_parse_characterization (s : String) :
    (∀ base d8 t6 b tail,
        s.data = base ++ '-' :: (d8 ++ '.' :: (t6 ++ '-' :: (b ++ tail))) →
        '\n' ∉ base → goodSuffix d8 t6 b → (tail = [] ∨ tail = ['\n']) →
        parse_snapshot_version s =
          if validDT (decodeDT d8 t6) then
            some (String.mk base ++ "-SNAPSHOT", decodeDT d8 t6, digitsToNat b)
          else none) ∧
    ((¬ ∃ base d8 t6 b tail,
        s.data = base ++ '-' :: (d8 ++ '.' :: (t6 ++ '-' :: (b ++ tail))) ∧
        goodSuffix d8 t6 b ∧ (tail = [] ∨ tail = ['\n'])) →
      parse_snapshot_version s = none) := by
  constructor
  · intro base d8 t6 b tail hs hnl hg ht
    rw [parse_snapshot_version, hs, patternScan_complete hg ht base [] hnl]
    simp
  · intro hne
    cases hm : patternScan [] s.data with
    | none => rw [parse_snapshot_version, hm]
    | some q =>
      obtain ⟨base, d8, t6, b⟩ := q
      obtain ⟨base₀, tail, _, hl, hg, ht, _⟩ := patternScan_sound s.data [] base d8 t6 b hm
      exact absurd ⟨base₀, d8, t6, b, tail, hl, hg, ht⟩ hne

/-- Witness for C4's characterization on the spec's example version
string. -/
theorem C4_parse_characterization_witness :
    parse_snapshot_version "1.0-20240115.083045-7" =
      some ("1.0-SNAPSHOT", ⟨2024, 1, 15, 8, 30, 45⟩, 7) := by
  have h := (C4_parse_characterization "1.0-20240115.083045-7").1 "1.0".data
    "20240115".data "083045".data "7".data [] (by decide) (by decide) (by decide)
    (Or.inl rfl)
  rw [h]
  decide

/-- C4 counterexample: Python's `$` also matches just before one trailing
newline and its `.` never matches a newline, so
"1.0-20240115.083045-7\n" parses successfully although it does not match
the spec's pattern, while "a\nb-20240115.083045-7" matches the spec's
pattern (with a valid calendar timestamp) yet yields no-match. -/
theorem C4_counterexample_newline :
    (parse_snapshot_version "1.0-20240115.083045-7\n" =
        some ("1.0-SNAPSHOT", ⟨2024, 1, 15, 8, 30, 45⟩, 7) ∧
      ¬ ∃ base d8 t6 b, ("1.0-20240115.083045-7\n").data =
          base ++ '-' :: (d8 ++ '.' :: (t6 ++ '-' :: b)) ∧ goodSuffix d8 t6 b) ∧
    (parse_snapshot_version "a\nb-20240115.083045-7" = none ∧
      ∃ base d8 t6 b, ("a\nb-20240115.083045-7").data =
          base ++ '-' :: (d8 ++ '.' :: (t6 ++ '-' :: b)) ∧ goodSuffix d8 t6 b ∧
          validDT (decodeDT d8 t6)) := by
  refine ⟨⟨by decide, ?_⟩, ⟨by decide, ?_⟩⟩
  · intro hex
    have h := (strictScan_iff (("1.0-20240115.083045-7\n").data)).mpr hex
    exact absurd h (by decide)
  · exact ⟨"a\nb".data, "20240115".data, "083045".data, "7".data, by decide, by decide,
      by decide⟩

/-! ## C10: the empty base -/

/-- C10: a version string of the form `-<date8>.<time6>-<build>` with an
empty base and a valid calendar timestamp parses successfully, returning
base version exactly "-SNAPSHOT" with the decoded timestamp and build
number. -/
theorem C10_empty_base (d8 t6 b : List Char) (hg : goodSuffix d8 t6 b)
    (hv : validDT (decodeDT d8 t6)) :
    parse_snapshot_version (String.mk ('-' :: (d8 ++ '.' :: (t6 ++ '-' :: b)))) =
      some ("-SNAPSHOT", decodeDT d8 t6, digitsToNat b) := by
  have hb : ('-' :: (d8 ++ '.' :: (t6 ++ '-' :: b)) : List Char) =
      [] ++ '-' :: (d8 ++ '.' :: (t6 ++ '-' :: (b ++ []))) := by simp
  rw [parse_snapshot_version]
  show (match patternScan [] ('-' :: (d8 ++ '.' :: (t6 ++ '-' :: b))) with
    | none => none
    | some (base, d8, t6, b) =>
      if validDT (decodeDT d8 t6) then
        some (String.mk base ++ "-SNAPSHOT", decodeDT d8 t6, digitsToNat b)
      else none) = some ("-SNAPSHOT", decodeDT d8 t6, digitsToNat b)
  rw [hb, patternScan_complete hg (Or.inl rfl) [] [] (by simp)]
  simp [hv]

/-- Witness for C10 on the concrete string "-20240115.083045-7". -/
theorem C10_empty_base_witness :
    parse_snapshot_version
        (String.mk ('-' :: ("20240115".data ++ '.' :: ("083045".data ++ '-' :: "7".data)))) =
      some ("-SNAPSHOT", decodeDT "20240115".data "083045".data, digitsToNat "7".data) :=
  C10_empty_base "20240115".data "083045".data "7".data (by decide) (by decide)
